import Mathlib

/-!
Verification of the finch dispatch core (a Telegram-bot command framework).

The development shallowly embeds the Go sources:
  * `finch.go`                — `Config`, `LoadConfig`, `Config.Save`, `Finch.Start`;
  * `commands.go`             — `CommandBase` (`Get`/`Set`), `CommandState`, `Help`;
  * `commands/stats/stats.go` — `infoCollector` (`Init`/`ShouldExecute`/`Execute`);
  * `commands/help/help.go`   — `helpCommand.Execute`.

Go's `map[string]interface{}` configuration document is modelled by an
association list of JSON-like values.  The `encoding/json` library is an
external collaborator: its marshalling is modelled abstractly by a file state
that either is missing, holds unparseable bytes, or holds the serialized image
of a config (marshalling a config always succeeds, and unmarshalling the
marshalled image yields the original document).
-/

namespace Finch

/-- A JSON-like value, the dynamic `interface{}` payload stored in the config
document.  Go's JSON decoder produces `nil`, `bool`, `float64`, `string`,
`[]interface{}` or `map[string]interface{}`; numbers in this development are
integers (the only numbers the code stores are message counts). -/
inductive Value where
  | null : Value
  | boolV : Bool → Value
  | num : Int → Value
  | str : String → Value
  | arr : List Value → Value
  | obj : List (String × Value) → Value

/-- `Config` from finch.go: `type Config map[string]interface{}`, modelled as an
association list from keys to values. -/
def Config := List (String × Value)

/-- Reading `c[key]` from a Go map of interfaces: a missing key yields the nil
interface, which this model identifies with `Value.null` (a stored JSON `null`
also decodes to the nil interface). -/
def Config.getVal : Config → String → Value
  | [], _ => .null
  | (k, v) :: rest, key => if k = key then v else Config.getVal rest key

/-- Writing `c[key] = v` into a Go map: replace the binding if the key is
present, otherwise add it. -/
def Config.setVal : Config → String → Value → Config
  | [], key, v => [(key, v)]
  | (k, w) :: rest, key, v =>
      if k = key then (key, v) :: rest else (k, w) :: Config.setVal rest key v

/-- The durable backing file (default `config.json`).  `missing` covers every
state in which `ioutil.ReadFile` reports an error (absent or unreadable file);
`corrupt` holds bytes that `json.Unmarshal` rejects; `stored c` holds the
`json.Marshal` image of config `c`. -/
inductive FileState where
  | missing : FileState
  | corrupt : FileState
  | stored : Config → FileState

/-- `LoadConfig` from finch.go: read the backing file; on a read error return
`(&Config{}, nil)`; otherwise `json.Unmarshal` into a fresh config, discarding
the unmarshal error (an unparseable file leaves the config nil/empty), and
return it with a nil error. -/
def LoadConfig : FileState → Config × Option String
  | .missing => ([], none)
  | .corrupt => ([], none)
  | .stored c => (c, none)

/-- `Config.Save` from finch.go: marshal the whole config (marshalling the
JSON-like `Value` model always succeeds, so the `json.Marshal` error branch is
unreachable) and write it over the backing file; `ioutil.WriteFile` may fail,
which is modelled by the `writeOk` flag.  Returns the new file state together
with the error `Save` returns to its caller. -/
def Config.Save (c : Config) (writeOk : Bool) (fs : FileState) :
    FileState × Option String :=
  if writeOk then (.stored c, none) else (fs, some "write error")

/-- The state a command's `Get`/`Set` operate on: the bot's in-memory config,
the durable file, and whether writes to the file currently succeed. -/
structure BotState where
  config : Config
  file : FileState
  writeOk : Bool

/-- `CommandBase.Get` from commands.go: `return cmd.Finch.Config[key]`. -/
def CommandBase.Get (st : BotState) (key : String) : Value :=
  st.config.getVal key

/-- `CommandBase.Set` from commands.go:
`cmd.Finch.Config[key] = value; cmd.Finch.Config.Save()`.
The in-memory config is mutated first, then `Save` rewrites the whole mapping
to the file.  `Set` has no return value in the source: the error `Save`
returns is discarded, so the result is just the mutated state. -/
def CommandBase.Set (st : BotState) (key : String) (v : Value) : BotState :=
  let cfg := st.config.setVal key v
  let saved := Config.Save cfg st.writeOk st.file
  { st with config := cfg, file := saved.1 }

/-- The set operation as the spec describes it (§4.4): mutate the in-memory
mapping, rewrite the durable location, and fail with the I/O error, surfaced
to the caller of set, when the write cannot complete.  Stated for comparison
with the source's `CommandBase.Set`, which discards the error. -/
def CommandBase.SetSurfacing (st : BotState) (key : String) (v : Value) :
    BotState × Option String :=
  let cfg := st.config.setVal key v
  let saved := Config.Save cfg st.writeOk st.file
  ({ st with config := cfg, file := saved.1 }, saved.2)

/-- Reading a key back immediately after setting it yields the written value. -/
theorem Config.getVal_setVal_self (c : Config) (key : String) (v : Value) :
    (c.setVal key v).getVal key = v := by
  induction c with
  | nil => simp [Config.setVal, Config.getVal]
  | cons p rest ih =>
      by_cases h : p.1 = key
      · simp [Config.setVal, Config.getVal, h]
      · simp [Config.setVal, Config.getVal, h, ih]

/-- A concrete bot state whose backing file cannot be written. -/
def failSt : BotState := { config := [], file := .missing, writeOk := false }

/-- C5: `LoadConfig` on a missing (non-readable) backing file returns an empty
mapping together with a nil error, never an error value. -/
theorem C5_load_missing_empty_no_error :
    LoadConfig FileState.missing = ([], none) := rfl

/-- C10: `LoadConfig` returns a nil error for every state of the backing file;
a read failure yields the empty mapping, and a readable file with invalid JSON
has its parse error discarded, also yielding the empty mapping — a corrupt
config file behaves as an empty config. -/
theorem C10_load_total_nil_error (fs : FileState) :
    (LoadConfig fs).2 = none ∧
      (LoadConfig FileState.missing).1 = [] ∧
      (LoadConfig FileState.corrupt).1 = [] := by
  refine ⟨?_, rfl, rfl⟩
  cases fs <;> rfl

/-- C6: after `set(k, v)` an immediate `get(k)` returns `v`, and — when the
write completes — a fresh `load()` of the durable location returns a mapping
containing `v` at `k` (round-trip through serialization and the file). -/
theorem C6_set_get_roundtrip (st : BotState) (key : String) (v : Value)
    (hw : st.writeOk = true) :
    CommandBase.Get (CommandBase.Set st key v) key = v ∧
      (LoadConfig (CommandBase.Set st key v).file).1.getVal key = v := by
  constructor
  · simpa [CommandBase.Get, CommandBase.Set, Config.Save, hw] using
      Config.getVal_setVal_self st.config key v
  · simpa [CommandBase.Set, Config.Save, hw, LoadConfig] using
      Config.getVal_setVal_self st.config key v

theorem C6_set_get_roundtrip_witness :
    CommandBase.Get
        (CommandBase.Set ⟨[], .missing, true⟩ "volume" (Value.num 11)) "volume"
        = Value.num 11 ∧
      (LoadConfig (CommandBase.Set ⟨[], .missing, true⟩ "volume"
          (Value.num 11)).file).1.getVal "volume" = Value.num 11 :=
  C6_set_get_roundtrip ⟨[], .missing, true⟩ "volume" (Value.num 11) rfl

/-- C3, counterexample: with a failing backing file, the spec-described set
surfaces the write error, while the source's `CommandBase.Set` — whose whole
result is the mutated state, with no error component — returns normally: the
in-memory value is updated, the file is unchanged, and the caller of `Set`
receives no error. -/
theorem C3_counterexample_set_discards_error :
    (CommandBase.SetSurfacing failSt "volume" (Value.num 11)).2
        = some "write error" ∧
      CommandBase.Set failSt "volume" (Value.num 11)
        = { config := [("volume", Value.num 11)], file := .missing,
            writeOk := false } := ⟨rfl, rfl⟩

/-- C3, amended: `set` first mutates the in-memory mapping and then rewrites
the entire mapping to the durable location; when the write cannot complete,
`Save` produces an I/O error but `CommandBase.Set` discards it — the caller of
set observes no error, the in-memory value remains updated, and the file keeps
its old contents. -/
theorem C3_set_mutates_then_saves (st : BotState) (key : String) (v : Value) :
    (CommandBase.Set st key v).config = st.config.setVal key v ∧
      (st.writeOk = true →
        (CommandBase.Set st key v).file = .stored (st.config.setVal key v)) ∧
      (st.writeOk = false →
        (Config.Save (st.config.setVal key v) st.writeOk st.file).2
            = some "write error" ∧
          CommandBase.Set st key v
            = { config := st.config.setVal key v, file := st.file,
                writeOk := st.writeOk }) := by
  refine ⟨rfl, ?_, ?_⟩
  · intro hw
    simp [CommandBase.Set, Config.Save, hw]
  · intro hw
    refine ⟨by simp [Config.Save, hw], ?_⟩
    simp [CommandBase.Set, Config.Save, hw]

theorem C3_set_mutates_then_saves_witness :
    (CommandBase.Set failSt "volume" (Value.num 11)).config
        = Config.setVal [] "volume" (Value.num 11) ∧
      (Config.Save (Config.setVal [] "volume" (Value.num 11)) false
          FileState.missing).2 = some "write error" ∧
      CommandBase.Set failSt "volume" (Value.num 11)
        = { config := Config.setVal [] "volume" (Value.num 11),
            file := .missing, writeOk := false } := by
  obtain ⟨h1, _, h3⟩ := C3_set_mutates_then_saves failSt "volume" (Value.num 11)
  exact ⟨h1, (h3 rfl).1, (h3 rfl).2⟩

/-- `Help` from commands.go: static metadata for help listings.  The command
implementations additionally populate a `Botfather` table of
(command, description) rows. -/
structure Help where
  Name : String
  Description : String
  Example : String
  Botfather : List (List String)
deriving DecidableEq

/-- `Help.String` from commands.go: render a help entry; `full` makes the
entry multiline with the usage example. -/
def Help.render (h : Help) (full : Bool) : String :=
  h.Name ++ (if full then "\n" else " - ") ++ h.Description ++ "\n"
    ++ (if full then "Example: " ++ h.Example ++ "\n" else "") ++ "\n"

/-- The part of a `tgbotapi.Message` the dispatch core needs: text, chat id,
message id, the stringified sender identity (`From.String()`), and the
command-arguments substring (`CommandArguments()`). -/
structure Message where
  text : String
  chatID : Int
  messageID : Int
  fromUser : String
  args : String
deriving DecidableEq

/-- A `tgbotapi.Update`: `message` is `none` when the update carries no usable
message (`update.Message == nil`). -/
structure Update where
  message : Option Message
deriving DecidableEq

/-- A registered command, reduced to what routing and help listing consult:
its `Help()` metadata and its `ShouldExecute` predicate.  The execution
entry points `Execute` / `ExecuteKeyboard` are observed through the router's
invocation trace. -/
structure CommandSpec where
  help : Help
  shouldRun : Update → Bool

/-- `CommandState` from commands.go: the command together with its
waiting-for-reply flag. -/
structure CommandState where
  command : CommandSpec
  waitingForReply : Bool

/-- One execution-entry-point invocation recorded by the router: `run i` means
registry entry `i` had `Execute` invoked, `runAsReply i` that it had
`ExecuteKeyboard` invoked. -/
inductive Invocation where
  | run : Nat → Invocation
  | runAsReply : Nat → Invocation
deriving DecidableEq

/-- The registry index an invocation refers to. -/
def Invocation.idx : Invocation → Nat
  | .run i => i
  | .runAsReply i => i

/-- Modelled from the spec: the registry walk of `Finch.commandRouter`, which
is not under src/ (only its callers in `Finch.Start` and `Finch.StartWebhook`
are).  Spec §4.3 step 2: for each command state in registry order, a waiting
command gets `runAsReply` unconditionally (`shouldRun` is bypassed); otherwise
`run` is invoked iff `shouldRun` returns true.  `i` indexes the current entry;
the result is the trace of invocations in the order they are performed. -/
def routeFrom (u : Update) : Nat → List CommandState → List Invocation
  | _, [] => []
  | i, s :: rest =>
      if s.waitingForReply then .runAsReply i :: routeFrom u (i + 1) rest
      else if s.command.shouldRun u then .run i :: routeFrom u (i + 1) rest
      else routeFrom u (i + 1) rest

/-- Modelled from the spec: `Finch.commandRouter` (not under src/).  Spec §4.3
step 1: an update without a usable message is dropped silently before the
registry walk; otherwise the registry is walked from index 0. -/
def commandRouter (reg : List CommandState) (u : Update) : List Invocation :=
  match u.message with
  | none => []
  | some _ => routeFrom u 0 reg

/-- Every invocation recorded from index `i` onward refers to index at least `i`. -/
theorem routeFrom_le_idx (u : Update) (l : List CommandState) :
    ∀ (i : Nat), ∀ inv ∈ routeFrom u i l, i ≤ inv.idx := by
  induction l with
  | nil => intro i inv h; simp [routeFrom] at h
  | cons s rest ih =>
      intro i inv h
      cases hw : s.waitingForReply with
      | true =>
          simp [routeFrom, hw] at h
          rcases h with rfl | h
          · exact Nat.le_refl _
          · exact Nat.le_of_succ_le (ih (i + 1) inv h)
      | false =>
          cases hs : s.command.shouldRun u with
          | true =>
              simp [routeFrom, hw, hs] at h
              rcases h with rfl | h
              · exact Nat.le_refl _
              · exact Nat.le_of_succ_le (ih (i + 1) inv h)
          | false =>
              simp [routeFrom, hw, hs] at h
              exact Nat.le_of_succ_le (ih (i + 1) inv h)

/-- `run (i + k)` is in the trace from index `i` iff entry `k` is not waiting
and its predicate matches. -/
theorem run_mem_routeFrom (u : Update) (l : List CommandState) :
    ∀ (i k : Nat) (h : k < l.length),
      (Invocation.run (i + k) ∈ routeFrom u i l ↔
        ((l.get ⟨k, h⟩).waitingForReply = false ∧
          (l.get ⟨k, h⟩).command.shouldRun u = true)) := by
  induction l with
  | nil => intro i k h; exact absurd h (Nat.not_lt_zero k)
  | cons s rest ih =>
      intro i k h
      have hmem_lb : ∀ inv ∈ routeFrom u (i + 1) rest, i + 1 ≤ inv.idx :=
        routeFrom_le_idx u rest (i + 1)
      cases k with
      | zero =>
          cases hw : s.waitingForReply with
          | true =>
              simp [routeFrom, hw, List.get]
              intro hm
              have := hmem_lb _ hm
              simp [Invocation.idx] at this
          | false =>
              cases hs : s.command.shouldRun u with
              | true => simp [routeFrom, hw, hs, List.get]
              | false =>
                  simp [routeFrom, hw, hs, List.get]
                  intro hm
                  have := hmem_lb _ hm
                  simp [Invocation.idx] at this
      | succ k =>
          have hk : k < rest.length := Nat.lt_of_succ_lt_succ h
          have heq : i + (k + 1) = (i + 1) + k := by omega
          have hget : (s :: rest).get ⟨k + 1, h⟩ = rest.get ⟨k, hk⟩ := rfl
          rw [hget, heq]
          cases hw : s.waitingForReply with
          | true => simp [routeFrom, hw, ih (i + 1) k hk]
          | false =>
              cases hs : s.command.shouldRun u with
              | true => simp [routeFrom, hw, hs, ih (i + 1) k hk]; omega
              | false => simp [routeFrom, hw, hs, ih (i + 1) k hk]

/-- `runAsReply (i + k)` is in the trace from index `i` iff entry `k` is
waiting for a reply. -/
theorem runAsReply_mem_routeFrom (u : Update) (l : List CommandState) :
    ∀ (i k : Nat) (h : k < l.length),
      (Invocation.runAsReply (i + k) ∈ routeFrom u i l ↔
        (l.get ⟨k, h⟩).waitingForReply = true) := by
  induction l with
  | nil => intro i k h; exact absurd h (Nat.not_lt_zero k)
  | cons s rest ih =>
      intro i k h
      have hmem_lb : ∀ inv ∈ routeFrom u (i + 1) rest, i + 1 ≤ inv.idx :=
        routeFrom_le_idx u rest (i + 1)
      cases k with
      | zero =>
          cases hw : s.waitingForReply with
          | true => simp [routeFrom, hw, List.get]
          | false =>
              cases hs : s.command.shouldRun u with
              | true =>
                  simp [routeFrom, hw, hs, List.get]
                  intro hm
                  have := hmem_lb _ hm
                  simp [Invocation.idx] at this
              | false =>
                  simp [routeFrom, hw, hs, List.get]
                  intro hm
                  have := hmem_lb _ hm
                  simp [Invocation.idx] at this
      | succ k =>
          have hk : k < rest.length := Nat.lt_of_succ_lt_succ h
          have heq : i + (k + 1) = (i + 1) + k := by omega
          have hget : (s :: rest).get ⟨k + 1, h⟩ = rest.get ⟨k, hk⟩ := rfl
          rw [hget, heq]
          cases hw : s.waitingForReply with
          | true => simp [routeFrom, hw, ih (i + 1) k hk]; omega
          | false =>
              cases hs : s.command.shouldRun u with
              | true => simp [routeFrom, hw, hs, ih (i + 1) k hk]
              | false => simp [routeFrom, hw, hs, ih (i + 1) k hk]

/-- The registry indices of the trace are strictly increasing: invocations
happen in registration order. -/
theorem routeFrom_pairwise (u : Update) (l : List CommandState) :
    ∀ (i : Nat),
      (routeFrom u i l).Pairwise (fun a b => Invocation.idx a < Invocation.idx b) := by
  induction l with
  | nil => intro i; simp [routeFrom]
  | cons s rest ih =>
      intro i
      have hhead : ∀ inv ∈ routeFrom u (i + 1) rest,
          i < Invocation.idx inv := fun inv hm =>
        Nat.lt_of_succ_le (routeFrom_le_idx u rest (i + 1) inv hm)
      cases hw : s.waitingForReply with
      | true =>
          simp only [routeFrom, hw, if_true, List.pairwise_cons]
          exact ⟨fun inv hm => hhead inv hm, ih (i + 1)⟩
      | false =>
          cases hs : s.command.shouldRun u with
          | true =>
              simp only [routeFrom, hw, Bool.false_eq_true, if_false, hs,
                if_true, List.pairwise_cons]
              exact ⟨fun inv hm => hhead inv hm, ih (i + 1)⟩
          | false =>
              simp only [routeFrom, hw, hs, Bool.false_eq_true, if_false]
              exact ih (i + 1)

/-- The trace contains no duplicate invocation. -/
theorem routeFrom_nodup (u : Update) (l : List CommandState) (i : Nat) :
    (routeFrom u i l).Nodup :=
  (routeFrom_pairwise u l i).imp fun hlt => by
    intro he
    rw [he] at hlt
    exact absurd hlt (lt_irrefl _)


/-- The `Help()` metadata of the example stats command (stats.go). -/
def statsHelp : Help :=
  { Name := "Stats", Description := "Displays some statistics",
    Example := "/stats@@",
    Botfather := [["stats", "Displays some statistics about bot usage"]] }

/-- `infoCollector.Help()` from stats.go: only a name. -/
def collectorHelp : Help :=
  { Name := "Stats Collector", Description := "", Example := "",
    Botfather := [] }

/-- The stats collector viewed by the router: `infoCollector.ShouldExecute`
returns true for every update (stats.go). -/
def collectorSpec : CommandSpec :=
  { help := collectorHelp, shouldRun := fun _ => true }

/-- A concrete message from sender "alice". -/
def msgAlice : Message :=
  { text := "hello", chatID := 7, messageID := 100, fromUser := "alice",
    args := "" }

/-- A concrete update carrying a usable message. -/
def updAlice : Update := { message := some msgAlice }

/-- A concrete update without a usable message (`update.Message == nil`). -/
def updEmpty : Update := { message := none }

/-- A two-entry registry: the collector fresh, and the collector waiting for a
reply. -/
def regDemo : List CommandState :=
  [⟨collectorSpec, false⟩, ⟨collectorSpec, true⟩]

/-- C1: for every update carrying a usable message and every registered command
state, the router invokes at most one of the command's two execution entry
points: a waiting command has `runAsReply` (ExecuteKeyboard) invoked without
`shouldRun` being able to prevent it, and not `run`; a non-waiting command has
`run` (Execute) invoked iff `shouldRun` returns true, and never `runAsReply`;
no command has both entry points invoked for the same update. -/
theorem C1_router_one_entry_point (reg : List CommandState) (u : Update)
    (hmsg : u.message.isSome = true) (i : Nat) (hi : i < reg.length) :
    ((reg.get ⟨i, hi⟩).waitingForReply = true →
        Invocation.runAsReply i ∈ commandRouter reg u ∧
          Invocation.run i ∉ commandRouter reg u) ∧
      ((reg.get ⟨i, hi⟩).waitingForReply = false →
        ((Invocation.run i ∈ commandRouter reg u ↔
            (reg.get ⟨i, hi⟩).command.shouldRun u = true) ∧
          Invocation.runAsReply i ∉ commandRouter reg u)) ∧
      ¬(Invocation.run i ∈ commandRouter reg u ∧
          Invocation.runAsReply i ∈ commandRouter reg u) := by
  obtain ⟨m, hm⟩ := Option.isSome_iff_exists.mp hmsg
  have hrouter : commandRouter reg u = routeFrom u 0 reg := by
    simp [commandRouter, hm]
  have hrun := run_mem_routeFrom u reg 0 i hi
  have hreply := runAsReply_mem_routeFrom u reg 0 i hi
  rw [Nat.zero_add] at hrun hreply
  rw [hrouter]
  refine ⟨?_, ?_, ?_⟩
  · intro hw
    refine ⟨hreply.mpr hw, ?_⟩
    intro hmem
    have := (hrun.mp hmem).1
    rw [hw] at this
    exact absurd this (by simp)
  · intro hw
    refine ⟨⟨fun hmem => (hrun.mp hmem).2, fun hs => hrun.mpr ⟨hw, hs⟩⟩, ?_⟩
    intro hmem
    have := hreply.mp hmem
    rw [hw] at this
    exact absurd this (by simp)
  · rintro ⟨h1, h2⟩
    have := (hrun.mp h1).1
    rw [hreply.mp h2] at this
    exact absurd this (by simp)

theorem C1_router_one_entry_point_witness :
    Invocation.run 0 ∈ commandRouter regDemo updAlice ∧
      Invocation.runAsReply 0 ∉ commandRouter regDemo updAlice ∧
      Invocation.runAsReply 1 ∈ commandRouter regDemo updAlice ∧
      Invocation.run 1 ∉ commandRouter regDemo updAlice := by
  have h0 := C1_router_one_entry_point regDemo updAlice (by decide) 0 (by decide)
  have h1 := C1_router_one_entry_point regDemo updAlice (by decide) 1 (by decide)
  obtain ⟨-, h0f, -⟩ := h0
  obtain ⟨h1t, -, -⟩ := h1
  have r0 := h0f (by decide)
  have r1 := h1t (by decide)
  exact ⟨r0.1.mpr (by decide), r0.2, r1.1, r1.2⟩

/-- C2: for every update carrying a usable message, every registered command
not in waiting-for-reply state whose `shouldRun` returns true has `run`
invoked exactly once for that update, and the trace's invocations are in
registration order (strictly increasing registry indices); any number of
commands may match the same update. -/
theorem C2_matching_commands_run_once_in_order (reg : List CommandState)
    (u : Update) (hmsg : u.message.isSome = true) :
    (∀ (i : Nat) (hi : i < reg.length),
        (reg.get ⟨i, hi⟩).waitingForReply = false →
        (reg.get ⟨i, hi⟩).command.shouldRun u = true →
        (commandRouter reg u).count (Invocation.run i) = 1) ∧
      (commandRouter reg u).Pairwise
        (fun a b => Invocation.idx a < Invocation.idx b) := by
  obtain ⟨m, hm⟩ := Option.isSome_iff_exists.mp hmsg
  have hrouter : commandRouter reg u = routeFrom u 0 reg := by
    simp [commandRouter, hm]
  rw [hrouter]
  constructor
  · intro i hi hw hs
    have hmem : Invocation.run i ∈ routeFrom u 0 reg := by
      have := (run_mem_routeFrom u reg 0 i hi).mpr ⟨hw, hs⟩
      simpa using this
    have hle := List.nodup_iff_count_le_one.mp (routeFrom_nodup u reg 0)
      (Invocation.run i)
    have hpos := List.count_pos_iff.mpr hmem
    omega
  · exact routeFrom_pairwise u reg 0

theorem C2_matching_commands_run_once_in_order_witness :
    (commandRouter regDemo updAlice).count (Invocation.run 0) = 1 ∧
      (commandRouter regDemo updAlice).Pairwise
        (fun a b => Invocation.idx a < Invocation.idx b) :=
  ⟨(C2_matching_commands_run_once_in_order regDemo updAlice (by decide)).1 0
      (by decide) (by decide) (by decide),
    (C2_matching_commands_run_once_in_order regDemo updAlice (by decide)).2⟩

/-- C8: an inbound update without a usable message is dropped silently: the
router performs no invocation at all — no command's `run` or `runAsReply`
fires, and the walk produces no error (the router returns nothing else). -/
theorem C8_message_less_update_dropped (reg : List CommandState) (u : Update)
    (h : u.message = none) : commandRouter reg u = [] := by
  simp [commandRouter, h]

theorem C8_message_less_update_dropped_witness :
    commandRouter regDemo updEmpty = [] :=
  C8_message_less_update_dropped regDemo updEmpty rfl

/-- `UserMessageCount` from stats.go: `map[string]int`, modelled as an
association list. -/
def UserMessageCount := List (String × Int)

/-- Go map read with presence flag: `count, ok := m[user]`. -/
def UserMessageCount.find : UserMessageCount → String → Option Int
  | [], _ => none
  | (u, n) :: rest, user =>
      if u = user then some n else UserMessageCount.find rest user

/-- Go map write `m[user] = n`: replace the binding or add it. -/
def UserMessageCount.setCount : UserMessageCount → String → Int → UserMessageCount
  | [], user, n => [(user, n)]
  | (u, m) :: rest, user, n =>
      if u = user then (user, n) :: rest
      else (u, m) :: UserMessageCount.setCount rest user n

/-- The body of `infoCollector.Execute` acting on `userMessages`:
`if _, ok := userMessages[user]; !ok { userMessages[user] = 1 } else
{ userMessages[user] += 1 }` (stats.go). -/
def UserMessageCount.bump (m : UserMessageCount) (user : String) :
    UserMessageCount :=
  match m.find user with
  | none => m.setCount user 1
  | some n => m.setCount user (n + 1)

/-- `json.Marshal` of Go's `map[string]int`: a JSON object of numbers. -/
def UserMessageCount.toValue (m : UserMessageCount) : Value :=
  .obj (m.map fun p => (p.1, Value.num p.2))

/-- Field lookup in a JSON object's field list. -/
def lookupPairs : List (String × Value) → String → Option Value
  | [], _ => none
  | (k, v) :: rest, key =>
      if k = key then some v else lookupPairs rest key

/-- The field a JSON value maps `key` to; `none` for non-object values. -/
def Value.objLookup : Value → String → Option Value
  | .obj m, key => lookupPairs m key
  | _, _ => none

/-- The `for user, count := range stored.(map[string]interface{})` loop of
`infoCollector.Init` (stats.go): each count must be a JSON number (Go:
`float64`), otherwise the type assertion `count.(float64)` panics; a panic is
modelled by `Except.error`. -/
def decodeCounts : UserMessageCount → List (String × Value) →
    Except String UserMessageCount
  | acc, [] => .ok acc
  | acc, (user, Value.num q) :: rest =>
      decodeCounts (acc.setCount user q) rest
  | _, (_, _) :: _ =>
      .error "interface conversion: count is not a float64"

/-- `infoCollector.Init` from stats.go: read `Get("stats")`; if the stored
value is the nil interface (absent key or JSON null), start with a fresh empty
map; otherwise assert it is a string-keyed map and decode every count.  A
failed type assertion is a Go runtime panic, modelled by `Except.error`; the
function's own `error` result is always nil in the source. -/
def infoCollector.Init (cfg : Config) : Except String UserMessageCount :=
  match cfg.getVal "stats" with
  | .null => .ok []
  | .obj m => decodeCounts [] m
  | _ => .error "interface conversion: stored value is not a string map"

/-- Decoding succeeds exactly when every stored count is a JSON number. -/
theorem decodeCounts_isOk (m : List (String × Value)) :
    ∀ acc, (decodeCounts acc m).isOk = true ↔
      ∀ p ∈ m, ∃ q, p.2 = Value.num q := by
  induction m with
  | nil => intro acc; simp [decodeCounts, Except.isOk, Except.toBool]
  | cons p rest ih =>
      intro acc
      obtain ⟨user, v⟩ := p
      cases v with
      | num q =>
          rw [show decodeCounts acc ((user, Value.num q) :: rest)
              = decodeCounts (acc.setCount user q) rest from rfl]
          rw [ih]
          constructor
          · rintro h p hp
            rcases List.mem_cons.mp hp with rfl | hp
            · exact ⟨q, rfl⟩
            · exact h p hp
          · intro h p hp
            exact h p (List.mem_cons_of_mem _ hp)
      | null =>
          refine ⟨fun h => absurd h (by simp [decodeCounts, Except.isOk, Except.toBool]),
            fun h => ?_⟩
          obtain ⟨q, hq⟩ := h (user, .null) (List.mem_cons_self _ _)
          cases hq
      | boolV b =>
          refine ⟨fun h => absurd h (by simp [decodeCounts, Except.isOk, Except.toBool]),
            fun h => ?_⟩
          obtain ⟨q, hq⟩ := h (user, .boolV b) (List.mem_cons_self _ _)
          cases hq
      | str sv =>
          refine ⟨fun h => absurd h (by simp [decodeCounts, Except.isOk, Except.toBool]),
            fun h => ?_⟩
          obtain ⟨q, hq⟩ := h (user, .str sv) (List.mem_cons_self _ _)
          cases hq
      | arr l =>
          refine ⟨fun h => absurd h (by simp [decodeCounts, Except.isOk, Except.toBool]),
            fun h => ?_⟩
          obtain ⟨q, hq⟩ := h (user, .arr l) (List.mem_cons_self _ _)
          cases hq
      | obj o =>
          refine ⟨fun h => absurd h (by simp [decodeCounts, Except.isOk, Except.toBool]),
            fun h => ?_⟩
          obtain ⟨q, hq⟩ := h (user, .obj o) (List.mem_cons_self _ _)
          cases hq

/-- C4, counterexample: a value of the wrong type under "stats" (here a JSON
string) makes `infoCollector.Init` panic on the failed type assertion
`stored.(map[string]interface{})` instead of substituting an empty default. -/
theorem C4_counterexample_wrong_type_panics :
    infoCollector.Init [("stats", Value.str "oops")]
      = Except.error "interface conversion: stored value is not a string map" :=
  rfl

/-- C4, amended: `infoCollector.Init` substitutes an empty default only when
the stored value is the nil interface (key absent or JSON null); a present
value of a wrong type — a non-object, or an object with a non-numeric count —
causes a runtime panic (failed Go type assertion), not a fresh start. -/
theorem C4_init_default_only_for_nil (cfg : Config) :
    (cfg.getVal "stats" = Value.null → infoCollector.Init cfg = .ok []) ∧
      (∀ m, cfg.getVal "stats" = Value.obj m →
        ((infoCollector.Init cfg).isOk = true ↔
          ∀ p ∈ m, ∃ q, p.2 = Value.num q)) ∧
      (∀ v, cfg.getVal "stats" = v → v ≠ Value.null →
        (∀ m, v ≠ Value.obj m) → (infoCollector.Init cfg).isOk = false) := by
  refine ⟨?_, ?_, ?_⟩
  · intro h
    simp [infoCollector.Init, h]
  · intro m h
    simp only [infoCollector.Init, h]
    exact decodeCounts_isOk m []
  · intro v h hnull hobj
    simp only [infoCollector.Init, h]
    cases v with
    | null => exact absurd rfl hnull
    | obj m => exact absurd rfl (hobj m)
    | num q => simp [Except.isOk, Except.toBool]
    | boolV b => simp [Except.isOk, Except.toBool]
    | str sv => simp [Except.isOk, Except.toBool]
    | arr l => simp [Except.isOk, Except.toBool]

theorem C4_init_default_only_for_nil_witness :
    infoCollector.Init [] = .ok [] ∧
      (infoCollector.Init
          [("stats", Value.obj [("alice", Value.num 2)])]).isOk = true ∧
      (infoCollector.Init [("stats", Value.num 5)]).isOk = false := by
  refine ⟨(C4_init_default_only_for_nil []).1 rfl, ?_, ?_⟩
  · refine ((C4_init_default_only_for_nil
        [("stats", Value.obj [("alice", Value.num 2)])]).2.1
        [("alice", Value.num 2)] rfl).mpr ?_
    intro p hp
    rw [List.mem_singleton] at hp
    subst hp
    exact ⟨2, rfl⟩
  · refine (C4_init_default_only_for_nil [("stats", Value.num 5)]).2.2
      (Value.num 5) rfl (by simp) (fun m => by simp)

/-- The collector's mutable context: the package-level `userMessages` map and
the bot state its `Set` writes through. -/
structure CollectorState where
  userMessages : UserMessageCount
  bot : BotState

/-- `infoCollector.Execute` from stats.go, given the update's message (the
router drops message-less updates before any command runs, so the
`update.Message.From.String()` dereference is safe): bump the sender's count
in `userMessages`, then `Set("stats", userMessages)`. -/
def infoCollector.Execute (msg : Message) (st : CollectorState) :
    CollectorState :=
  let m := st.userMessages.bump msg.fromUser
  { userMessages := m, bot := CommandBase.Set st.bot "stats" m.toValue }

/-- Feed a finite sequence of usable messages to the collector, in order
(`infoCollector.ShouldExecute` returns true for every update, so each one is
executed). -/
def processAll (msgs : List Message) (st : CollectorState) : CollectorState :=
  msgs.foldl (fun s m => infoCollector.Execute m s) st

/-- Looking up the key just set yields the new count. -/
theorem find_setCount_self (m : UserMessageCount) (u : String) (n : Int) :
    (m.setCount u n).find u = some n := by
  induction m with
  | nil => simp [UserMessageCount.setCount, UserMessageCount.find]
  | cons p rest ih =>
      by_cases h : p.1 = u
      · simp [UserMessageCount.setCount, UserMessageCount.find, h]
      · simp [UserMessageCount.setCount, UserMessageCount.find, h, ih]

/-- Setting one key leaves every other key's count unchanged. -/
theorem find_setCount_ne (m : UserMessageCount) (u u' : String) (n : Int)
    (h : u ≠ u') : (m.setCount u n).find u' = m.find u' := by
  induction m with
  | nil => simp [UserMessageCount.setCount, UserMessageCount.find, h]
  | cons p rest ih =>
      by_cases hp : p.1 = u
      · simp [UserMessageCount.setCount, UserMessageCount.find, hp, h, ih]
      · simp only [UserMessageCount.setCount, hp, if_false]
        by_cases hp' : p.1 = u'
        · simp [UserMessageCount.find, hp']
        · simp [UserMessageCount.find, hp', ih]

/-- Bumping a sender increments that sender's count (from a default of 0). -/
theorem find_bump_self (m : UserMessageCount) (u : String) :
    (m.bump u).find u = some ((m.find u).getD 0 + 1) := by
  rw [UserMessageCount.bump]
  cases h : m.find u with
  | none => simp [h, find_setCount_self]
  | some n => simp [h, find_setCount_self]

/-- Bumping one sender leaves other senders' counts unchanged. -/
theorem find_bump_ne (m : UserMessageCount) (u u' : String) (h : u ≠ u') :
    (m.bump u).find u' = m.find u' := by
  rw [UserMessageCount.bump]
  cases hf : m.find u with
  | none => simp [find_setCount_ne m u u' _ h]
  | some n => simp [find_setCount_ne m u u' _ h]

/-- A sender's count after a run of the collector: unchanged if no processed
message is theirs, otherwise the old count (default 0) plus the number of
their messages. -/
theorem processAll_find (msgs : List Message) :
    ∀ (st : CollectorState) (s : String),
      (processAll msgs st).userMessages.find s =
        (if msgs.countP (fun mg => mg.fromUser == s) = 0 then
          st.userMessages.find s
         else some ((st.userMessages.find s).getD 0 +
          (msgs.countP (fun mg => mg.fromUser == s) : Int))) := by
  induction msgs with
  | nil => intro st s; simp [processAll]
  | cons mg rest ih =>
      intro st s
      have hstep : processAll (mg :: rest) st
          = processAll rest (infoCollector.Execute mg st) := rfl
      rw [hstep, ih]
      by_cases hcase : mg.fromUser = s
      · have hm : (infoCollector.Execute mg st).userMessages
            = st.userMessages.bump s := by
          simp [infoCollector.Execute, hcase]
        have hcnt : (mg :: rest).countP (fun mg => mg.fromUser == s)
            = rest.countP (fun mg => mg.fromUser == s) + 1 := by
          simp [List.countP_cons, hcase]
        rw [hm, hcnt, find_bump_self]
        by_cases hc : rest.countP (fun mg => mg.fromUser == s) = 0
        · simp [hc]
        · simp only [hc, if_false, Option.getD_some, Nat.add_eq_zero,
            one_ne_zero, and_false, if_false]
          congr 1
          push_cast
          ring
      · have hm : (infoCollector.Execute mg st).userMessages.find s
            = st.userMessages.find s := by
          simp only [infoCollector.Execute]
          exact find_bump_ne st.userMessages mg.fromUser s hcase
        have hcnt : (mg :: rest).countP (fun mg => mg.fromUser == s)
            = rest.countP (fun mg => mg.fromUser == s) := by
          simp [List.countP_cons, hcase]
        rw [hm, hcnt]

/-- Marshalled counts decode field-by-field: looking a sender up in the JSON
image of `userMessages` is looking them up in the map. -/
theorem objLookup_toValue (m : UserMessageCount) (s : String) :
    m.toValue.objLookup s = (m.find s).map Value.num := by
  induction m with
  | nil => simp [UserMessageCount.toValue, Value.objLookup, lookupPairs,
      UserMessageCount.find]
  | cons p rest ih =>
      by_cases h : p.1 = s
      · simp [UserMessageCount.toValue, Value.objLookup, lookupPairs,
          UserMessageCount.find, h]
      · simpa [UserMessageCount.toValue, Value.objLookup, lookupPairs,
          UserMessageCount.find, h] using ih

/-- After at least one message, the config's "stats" entry is the JSON image
of the current `userMessages` (the collector rewrites it on every message). -/
theorem processAll_config_stats :
    ∀ (msgs : List Message) (st : CollectorState), msgs ≠ [] →
      (processAll msgs st).bot.config.getVal "stats" =
        (processAll msgs st).userMessages.toValue := by
  intro msgs
  induction msgs with
  | nil => intro st h; exact absurd rfl h
  | cons mg rest ih =>
      intro st _
      have hstep : processAll (mg :: rest) st
          = processAll rest (infoCollector.Execute mg st) := rfl
      rcases eq_or_ne rest [] with rfl | hne
      · rw [hstep]
        show (infoCollector.Execute mg st).bot.config.getVal "stats"
          = (infoCollector.Execute mg st).userMessages.toValue
        simp [infoCollector.Execute, CommandBase.Set,
          Config.getVal_setVal_self]
      · rw [hstep]
        exact ih (infoCollector.Execute mg st) hne

/-- C7: starting from an empty `userMessages`, after the collector processes a
(nonempty) finite sequence of updates with usable messages, the mapping stored
in the config under "stats" maps each sender's stringified identity to the
number of updates from that sender (and senders with no update are absent). -/
theorem C7_stats_mapping_counts_senders (msgs : List Message)
    (st : CollectorState) (h0 : st.userMessages = []) (hne : msgs ≠ [])
    (s : String) :
    ((processAll msgs st).bot.config.getVal "stats").objLookup s =
      (if msgs.countP (fun mg => mg.fromUser == s) = 0 then none
       else some (Value.num (msgs.countP (fun mg => mg.fromUser == s)))) := by
  rw [processAll_config_stats msgs st hne, objLookup_toValue,
    processAll_find msgs st s, h0]
  by_cases hc : msgs.countP (fun mg => mg.fromUser == s) = 0
  · simp [hc, UserMessageCount.find]
  · simp [hc, UserMessageCount.find]

/-- A message from a given sender, as the collector sees it. -/
def msgFrom (user : String) : Message :=
  { text := "hi", chatID := 7, messageID := 1, fromUser := user, args := "" }

/-- Three updates from "alice" and two from "bob", interleaved. -/
def demoMsgs : List Message :=
  [msgFrom "alice", msgFrom "bob", msgFrom "alice", msgFrom "bob",
    msgFrom "alice"]

/-- An empty bot state with a writable file. -/
def demoBot : BotState := { config := [], file := .missing, writeOk := true }

/-- A fresh collector over an empty config with a writable file. -/
def demoCollector : CollectorState := { userMessages := [], bot := demoBot }

theorem C7_stats_mapping_counts_senders_witness :
    ((processAll demoMsgs demoCollector).bot.config.getVal
        "stats").objLookup "alice" = some (Value.num 3) ∧
      ((processAll demoMsgs demoCollector).bot.config.getVal
        "stats").objLookup "bob" = some (Value.num 2) ∧
      ((processAll demoMsgs demoCollector).bot.config.getVal
        "stats").objLookup "carol" = none := by
  have ha := C7_stats_mapping_counts_senders demoMsgs demoCollector rfl
    (by simp [demoMsgs]) "alice"
  have hb := C7_stats_mapping_counts_senders demoMsgs demoCollector rfl
    (by simp [demoMsgs]) "bob"
  have hc := C7_stats_mapping_counts_senders demoMsgs demoCollector rfl
    (by simp [demoMsgs]) "carol"
  refine ⟨?_, ?_, ?_⟩
  · rw [ha]; rfl
  · rw [hb]; rfl
  · rw [hc]; rfl

/-- Modelled from the spec: `RegisterCommand` is not under src/ (only its
callers in the command modules' init functions are).  Spec §4.1: `register`
appends a fresh CommandState wrapping the command to the registry, so
registration order is registry order. -/
def register (reg : List CommandState) (c : CommandSpec) : List CommandState :=
  reg ++ [{ command := c, waitingForReply := false }]

/-- The non-botfather branch of `helpCommand.Execute` (help.go): walk the
registry in order, skip entries whose help has an empty description, and
append each remaining entry rendered in full. -/
def helpEntries : List CommandState → String
  | [] => ""
  | s :: rest =>
      (if s.command.help.Description = "" then ""
       else s.command.help.render true) ++ helpEntries rest

/-- The listing text `helpCommand.Execute` sends (non-botfather branch): the
header followed by the entries in registry order. -/
def helpListing (cmds : List CommandState) : String :=
  "Loaded commands:\n\n" ++ helpEntries cmds

/-- The entries of a concatenation are the concatenated entries. -/
theorem helpEntries_append (l1 l2 : List CommandState) :
    helpEntries (l1 ++ l2) = helpEntries l1 ++ helpEntries l2 := by
  induction l1 with
  | nil => simp [helpEntries]
  | cons s rest ih => simp [helpEntries, ih, String.append_assoc]

/-- C9: the help listing enumerates commands in registration order — if the
command at registry position `i` was registered before the one at position
`j` and both have help descriptions, then position `i`'s rendered entry
appears before position `j`'s in the produced listing. -/
theorem C9_help_lists_in_registration_order (cmds : List CommandState)
    (i j : Nat) (hij : i < j) (hj : j < cmds.length)
    (hdi : (cmds.get ⟨i, lt_trans hij hj⟩).command.help.Description ≠ "")
    (hdj : (cmds.get ⟨j, hj⟩).command.help.Description ≠ "") :
    ∃ p q r, helpListing cmds =
      p ++ (cmds.get ⟨i, lt_trans hij hj⟩).command.help.render true ++ q ++
        (cmds.get ⟨j, hj⟩).command.help.render true ++ r := by
  have hi : i < cmds.length := lt_trans hij hj
  have hsplit1 : cmds = cmds.take i ++ cmds.drop i :=
    (List.take_append_drop i cmds).symm
  have hd1 : cmds.drop i = cmds.get ⟨i, hi⟩ :: cmds.drop (i + 1) :=
    List.drop_eq_getElem_cons hi
  have hd2 : cmds.drop (i + 1) =
      (cmds.drop (i + 1)).take (j - i - 1) ++
        (cmds.drop (i + 1)).drop (j - i - 1) :=
    (List.take_append_drop _ _).symm
  have hd3 : (cmds.drop (i + 1)).drop (j - i - 1) = cmds.drop j := by
    rw [List.drop_drop]
    congr 1
    omega
  have hd4 : cmds.drop j = cmds.get ⟨j, hj⟩ :: cmds.drop (j + 1) :=
    List.drop_eq_getElem_cons hj
  refine ⟨"Loaded commands:\n\n" ++ helpEntries (cmds.take i),
    helpEntries ((cmds.drop (i + 1)).take (j - i - 1)),
    helpEntries (cmds.drop (j + 1)), ?_⟩
  conv_lhs =>
    rw [helpListing, hsplit1, helpEntries_append, hd1]
    rw [show helpEntries (cmds.get ⟨i, hi⟩ :: cmds.drop (i + 1))
        = (if (cmds.get ⟨i, hi⟩).command.help.Description = "" then ""
           else (cmds.get ⟨i, hi⟩).command.help.render true)
          ++ helpEntries (cmds.drop (i + 1)) from rfl]
    rw [if_neg hdi, hd2, helpEntries_append, hd3, hd4]
    rw [show helpEntries (cmds.get ⟨j, hj⟩ :: cmds.drop (j + 1))
        = (if (cmds.get ⟨j, hj⟩).command.help.Description = "" then ""
           else (cmds.get ⟨j, hj⟩).command.help.render true)
          ++ helpEntries (cmds.drop (j + 1)) from rfl]
    rw [if_neg hdj]
  simp [String.append_assoc]

/-- The `helpCommand.Help()` metadata (help.go). -/
def helpHelp : Help :=
  { Name := "Help",
    Description := "Displays loaded commands and their help text",
    Example := "/help@@",
    Botfather := [["help", "Displays available commands and help information"]] }

/-- The help command as a registry entry (its routing predicate is irrelevant
to the listing). -/
def helpSpecDemo : CommandSpec := { help := helpHelp, shouldRun := fun _ => false }

/-- The stats command as a registry entry. -/
def statsSpecDemo : CommandSpec := { help := statsHelp, shouldRun := fun _ => false }

/-- A registry built by registering the help command, then the stats command. -/
def regHelpDemo : List CommandState :=
  register (register [] helpSpecDemo) statsSpecDemo

theorem C9_help_lists_in_registration_order_witness :
    ∃ p q r, helpListing regHelpDemo =
      p ++ (regHelpDemo.get ⟨0, by decide⟩).command.help.render true ++ q ++
        (regHelpDemo.get ⟨1, by decide⟩).command.help.render true ++ r :=
  C9_help_lists_in_registration_order regHelpDemo 0 1 (by decide) (by decide)
    (by decide) (by decide)

end Finch
